import Mathlib

/-!
Shallow embedding of the order-book reconstruction and metrics engine of
`src/services/paradexService.ts` (class `ParadexService`), together with the
raw-string price layer of `updateLevels`.  JavaScript numbers are modelled as
exact rationals; JavaScript `Map` objects are modelled as insertion-ordered
association lists with the same `get` / `set` / `delete` semantics.
-/

namespace ParadexSpread

/-! ### JavaScript `Map` model -/

/-- Models `Map.prototype.get`: the value of the first (unique) entry whose key
matches, or `none` when the key is absent. -/
def mapGet {α β : Type} [DecidableEq α] : List (α × β) → α → Option β
  | [], _ => none
  | e :: m, k => if e.1 = k then some e.2 else mapGet m k

/-- Models `Map.prototype.has`. -/
def hasKey {α β : Type} [DecidableEq α] : List (α × β) → α → Bool
  | [], _ => false
  | e :: m, k => if e.1 = k then true else hasKey m k

/-- Models `Map.prototype.set`: overwrite the entry in place when the key is
present (JavaScript `Map.set` keeps the original insertion position),
otherwise append a fresh entry at the end. -/
def mapSet {α β : Type} [DecidableEq α] (m : List (α × β)) (k : α) (v : β) :
    List (α × β) :=
  if hasKey m k then
    m.map fun e => if e.1 = k then (k, v) else e
  else m ++ [(k, v)]

/-- Models `Map.prototype.delete`: drop every entry whose key matches (a
well-formed map has at most one). -/
def mapDelete {α β : Type} [DecidableEq α] : List (α × β) → α → List (α × β)
  | [], _ => []
  | e :: m, k => if e.1 = k then mapDelete m k else e :: mapDelete m k

/-! ### Data model (`src/unnamed/part_003`, `types.ts`) -/

/-- One side of a local order book: the JavaScript `Map<number, number>` from
price to size. -/
abbrev Side := List (ℚ × ℚ)

/-- `OrderLevel` from `types.ts`: `{ price: number; size: number }`. -/
structure OrderLevel where
  price : ℚ
  size : ℚ
deriving DecidableEq, Repr

/-- The anonymous `liquidityInTightRange` record inside `MarketTicker`. -/
structure TightRangeLiquidity where
  bidSide : ℚ
  askSide : ℚ
  totalUsd : ℚ
deriving DecidableEq, Repr

/-- `MarketTicker` from `types.ts`. -/
structure MarketTicker where
  symbol : String
  price : ℚ
  bestBid : ℚ
  bestAsk : ℚ
  spread : ℚ
  spreadPct : ℚ
  liquidityInTightRange : TightRangeLiquidity
  volume24h : ℚ
deriving DecidableEq, Repr

/-- The per-instrument value stored in `localOrderBooks`:
`{ bids: Map<number, number>; asks: Map<number, number> }`. -/
structure Book where
  bids : Side
  asks : Side
deriving DecidableEq, Repr

/-- The mutable state of `ParadexService` relevant to book keeping:
`localOrderBooks : Map<string, Book>` and `marketTickers : Map<string, MarketTicker>`. -/
structure ServiceState where
  localOrderBooks : List (String × Book)
  marketTickers : List (String × MarketTicker)
deriving DecidableEq, Repr

/-- `TARGET_SPREAD_THRESHOLD = 0.00001` from `paradexService.ts`. -/
def TARGET_SPREAD_THRESHOLD : ℚ := 1 / 100000

/-! ### `updateLevels` (paradexService.ts lines 134-144) -/

/-- The body of `updateLevels` after the per-entry `parseFloat` boundary step
(spec section 6: price and size strings are parsed before reaching the core):
for each `(price, size)` pair in order, `size == 0` deletes the price,
otherwise the pair is inserted or overwritten. -/
def updateLevels (map : Side) (levels : List (ℚ × ℚ)) : Side :=
  levels.foldl
    (fun m lv => if lv.2 = 0 then mapDelete m lv.1 else mapSet m lv.1 lv.2) map

/-- Decimal digit characters read as a natural number, most significant
first. -/
def digitsToNat (l : List Char) : ℕ :=
  l.foldl (fun acc c => 10 * acc + (c.toNat - 48)) 0

/-- The rational value of a decimal numeral with integer part `ip` and
`fl` fraction digits reading `f`. -/
def mkDecimal (ip f fl : ℕ) : ℚ :=
  (ip : ℚ) + (f : ℚ) / (10 : ℚ) ^ fl

/-- Models JavaScript `parseFloat` on the well-formed nonnegative decimal
numerals delivered by the feed (`digits` optionally followed by `.` and more
digits, trailing characters ignored); `none` models `NaN` for strings with no
leading digit.  Exponents, signs and a leading `.` are outside the feed
format and not modelled. -/
def parseFloat (s : String) : Option ℚ :=
  let cs := s.toList
  let ds := cs.takeWhile Char.isDigit
  let rest := cs.dropWhile Char.isDigit
  if ds.isEmpty then none
  else
    match rest with
    | '.' :: rest2 =>
      let fs := rest2.takeWhile Char.isDigit
      some (mkDecimal (digitsToNat ds) (digitsToNat fs) fs.length)
    | _ => some (mkDecimal (digitsToNat ds) 0 0)

/-- `updateLevels` exactly as in the source, on raw `[priceStr, sizeStr]`
string pairs with the inline `parseFloat` calls.  An entry whose price or
size fails to parse (`NaN` in the source) is a no-op here: the source would
store a `NaN`-keyed level that no finite-keyed operation can address. -/
def updateLevelsRaw (map : Side) (levels : List (String × String)) : Side :=
  levels.foldl
    (fun m lv =>
      match parseFloat lv.1, parseFloat lv.2 with
      | some price, some size =>
          if size = 0 then mapDelete m price else mapSet m price size
      | _, _ => m)
    map

/-! ### Sorted read views (paradexService.ts lines 151-158) -/

/-- The descending comparator `(a, b) => b.price - a.price` used for bids. -/
def bidsOrder (a b : OrderLevel) : Prop := b.price ≤ a.price

/-- The ascending comparator `(a, b) => a.price - b.price` used for asks. -/
def asksOrder (a b : OrderLevel) : Prop := a.price ≤ b.price

instance : DecidableRel bidsOrder := fun a b =>
  inferInstanceAs (Decidable (b.price ≤ a.price))

instance : DecidableRel asksOrder := fun a b =>
  inferInstanceAs (Decidable (a.price ≤ b.price))

instance : IsTotal OrderLevel bidsOrder :=
  ⟨fun a b => (le_total b.price a.price).imp id id⟩

instance : IsTrans OrderLevel bidsOrder :=
  ⟨fun _ _ _ h1 h2 => le_trans h2 h1⟩

instance : IsTotal OrderLevel asksOrder :=
  ⟨fun a b => (le_total a.price b.price).imp id id⟩

instance : IsTrans OrderLevel asksOrder :=
  ⟨fun _ _ _ h1 h2 => le_trans h1 h2⟩

/-- `Array.from(book.bids.entries()).map(...).sort((a, b) => b.price - a.price)`:
the bid map materialized as levels sorted descending by price.  Map keys are
unique, so any sorted permutation is the unique result of the JavaScript
sort; insertion sort realizes it. -/
def sortedBids (m : Side) : List OrderLevel :=
  List.insertionSort bidsOrder (m.map fun e => ⟨e.1, e.2⟩)

/-- `Array.from(book.asks.entries()).map(...).sort((a, b) => a.price - b.price)`:
the ask map materialized as levels sorted ascending by price. -/
def sortedAsks (m : Side) : List OrderLevel :=
  List.insertionSort asksOrder (m.map fun e => ⟨e.1, e.2⟩)

/-! ### `calculateMetrics` (paradexService.ts lines 170-222) -/

/-- The bid liquidity loop (lines 190-197): scan the descending bid list from
the front, add `size` while `price >= bidCutoff`, break at the first level
below the cutoff. -/
def sumBidsWithinCutoff (bidCutoff : ℚ) : List OrderLevel → ℚ
  | [] => 0
  | l :: ls =>
      if bidCutoff ≤ l.price then l.size + sumBidsWithinCutoff bidCutoff ls
      else 0

/-- The ask liquidity loop (lines 199-206): scan the ascending ask list from
the front, add `size` while `price <= askCutoff`, break at the first level
above the cutoff. -/
def sumAsksWithinCutoff (askCutoff : ℚ) : List OrderLevel → ℚ
  | [] => 0
  | l :: ls =>
      if l.price ≤ askCutoff then l.size + sumAsksWithinCutoff askCutoff ls
      else 0

/-- `calculateMetrics(symbol, bids, asks)`: pure transform from the sorted
level lists to a `MarketTicker`.  The source reads `bids[0]` and `asks[0]`
under the caller-enforced precondition that both lists are non-empty, which
here is an explicit hypothesis. -/
def calculateMetrics (symbol : String) (bids asks : List OrderLevel)
    (hb : bids ≠ []) (ha : asks ≠ []) : MarketTicker :=
  let bestBid := (bids.head hb).price
  let bestAsk := (asks.head ha).price
  let midPrice := (bestBid + bestAsk) / 2
  let spread := bestAsk - bestBid
  let spreadPct := spread / bestBid
  let bidCutoff := bestBid * (1 - TARGET_SPREAD_THRESHOLD)
  let askCutoff := bestAsk * (1 + TARGET_SPREAD_THRESHOLD)
  let bidLiquidity := sumBidsWithinCutoff bidCutoff bids
  let askLiquidity := sumAsksWithinCutoff askCutoff asks
  { symbol := symbol
    price := midPrice
    bestBid := bestBid
    bestAsk := bestAsk
    spread := spread
    spreadPct := spreadPct
    liquidityInTightRange :=
      { bidSide := bidLiquidity
        askSide := askLiquidity
        totalUsd := (bidLiquidity + askLiquidity) * midPrice }
    volume24h := 0 }

/-! ### `processOrderBookUpdate` (paradexService.ts lines 128-168) -/

/-- `processOrderBookUpdate(symbol, rawBids, rawAsks)` on boundary-parsed
deltas.  Returns the updated service state together with the notification
event: `some data` when `notify()` ran (every subscriber is called with
`data = Array.from(marketTickers.values())`), `none` when no publication
happened. -/
def processOrderBookUpdate (st : ServiceState) (symbol : String)
    (rawBids rawAsks : List (ℚ × ℚ)) :
    ServiceState × Option (List MarketTicker) :=
  match mapGet st.localOrderBooks symbol with
  | none => (st, none)
  | some book =>
    let bids := updateLevels book.bids rawBids
    let asks := updateLevels book.asks rawAsks
    let books := mapSet st.localOrderBooks symbol ⟨bids, asks⟩
    if hb : sortedBids bids ≠ [] then
      if ha : sortedAsks asks ≠ [] then
        let ticker := calculateMetrics symbol (sortedBids bids) (sortedAsks asks) hb ha
        let tickers := mapSet st.marketTickers symbol ticker
        (⟨books, tickers⟩, some (tickers.map Prod.snd))
      else (⟨books, st.marketTickers⟩, none)
    else (⟨books, st.marketTickers⟩, none)

/-! ### Subscribers (paradexService.ts lines 224-233) -/

/-- Subscriber callbacks are distinguished by JavaScript reference identity,
abstracted as an identifier. -/
abbrev Handler := ℕ

/-- `subscribe(callback)`: `this.subscribers.push(callback)`. -/
def subscribe (subs : List Handler) (cb : Handler) : List Handler :=
  subs ++ [cb]

/-- The closure returned by `subscribe`:
`this.subscribers = this.subscribers.filter(s => s !== callback)`. -/
def unsubscribe (subs : List Handler) (cb : Handler) : List Handler :=
  subs.filter fun s => decide (s ≠ cb)

/-! ### `subscribeToMarkets` (paradexService.ts lines 98-119) -/

/-- The book-keeping effect of `subscribeToMarkets()`, run on every successful
(re)connection: for each symbol, initialize an empty book only when the
symbol has no book yet (`if (!this.localOrderBooks.has(symbol))`); an
existing book is left untouched.  The outbound JSON-RPC payloads have no
effect on the local state. -/
def subscribeToMarkets (st : ServiceState) (symbols : List String) : ServiceState :=
  { st with
    localOrderBooks :=
      symbols.foldl
        (fun books symbol =>
          if (mapGet books symbol).isSome then books
          else mapSet books symbol ⟨[], []⟩)
        st.localOrderBooks }

/-! ### Lemmas about the `Map` model -/

theorem mapGet_mapDelete {α β : Type} [DecidableEq α] (m : List (α × β)) (k p : α) :
    mapGet (mapDelete m k) p = if p = k then none else mapGet m p := by
  induction m with
  | nil => simp [mapDelete, mapGet]
  | cons e m ih =>
    by_cases hek : e.1 = k
    · rw [show mapDelete (e :: m) k = mapDelete m k from by simp [mapDelete, hek], ih]
      by_cases hpk : p = k
      · simp [hpk]
      · have hep : ¬e.1 = p := fun h => hpk (h ▸ hek.symm ▸ rfl)
        simp [hpk, mapGet, hep]
    · rw [show mapDelete (e :: m) k = e :: mapDelete m k from by simp [mapDelete, hek]]
      by_cases hep : e.1 = p
      · have hpk : ¬p = k := fun h => hek (h ▸ hep)
        simp [mapGet, hep, hpk]
      · simp [mapGet, hep, ih]

theorem mapGet_map_overwrite {α β : Type} [DecidableEq α] (m : List (α × β)) (k p : α) (v : β) :
    mapGet (m.map fun e => if e.1 = k then (k, v) else e) p =
      if p = k then (if hasKey m k then some v else none) else mapGet m p := by
  induction m with
  | nil => simp [mapGet, hasKey]
  | cons e m ih =>
    by_cases hek : e.1 = k
    · by_cases hpk : p = k
      · simp [mapGet, hasKey, hek, hpk]
      · have hep : ¬e.1 = p := fun h => hpk (h ▸ hek.symm ▸ rfl)
        have hkp : ¬k = p := fun h => hpk h.symm
        simpa [mapGet, hasKey, hek, hpk, hep, hkp] using ih
    · by_cases hep : e.1 = p
      · have hpk : ¬p = k := fun h => hek (h ▸ hep)
        simp [mapGet, hek, hep, hpk]
      · simp [mapGet, hasKey, hek, hep, ih]

theorem mapGet_append_fresh {α β : Type} [DecidableEq α] (m : List (α × β)) (k p : α) (v : β)
    (hfresh : hasKey m k = false) :
    mapGet (m ++ [(k, v)]) p = if p = k then some v else mapGet m p := by
  induction m with
  | nil =>
    by_cases hkp : k = p
    · simp [mapGet, hkp]
    · have hpk : ¬p = k := fun h => hkp h.symm
      simp [mapGet, hkp, hpk]
  | cons e m ih =>
    have hek : ¬e.1 = k := by
      intro h
      simp [hasKey, h] at hfresh
    have hm : hasKey m k = false := by
      simpa [hasKey, hek] using hfresh
    by_cases hep : e.1 = p
    · have hpk : ¬p = k := fun h => hek (h ▸ hep)
      simp [mapGet, hep, hpk]
    · simp [mapGet, hep, ih hm]

theorem mapGet_mapSet {α β : Type} [DecidableEq α] (m : List (α × β)) (k p : α) (v : β) :
    mapGet (mapSet m k v) p = if p = k then some v else mapGet m p := by
  unfold mapSet
  cases hhk : hasKey m k with
  | true => simp [hhk, mapGet_map_overwrite]
  | false => simp [hhk, mapGet_append_fresh m k p v hhk]

theorem hasKey_map_overwrite {α β : Type} [DecidableEq α] (m : List (α × β)) (k : α) (v : β)
    (h : hasKey m k = true) :
    hasKey (m.map fun e => if e.1 = k then (k, v) else e) k = true := by
  induction m with
  | nil => simp [hasKey] at h
  | cons e m ih =>
    by_cases hek : e.1 = k
    · simp [hasKey, hek]
    · simp only [hasKey, if_neg hek] at h
      simp [hasKey, hek, ih h]

theorem hasKey_append_self {α β : Type} [DecidableEq α] (m : List (α × β)) (k : α) (v : β) :
    hasKey (m ++ [(k, v)]) k = true := by
  induction m with
  | nil => simp [hasKey]
  | cons e m ih =>
    by_cases hek : e.1 = k
    · simp [hasKey, hek]
    · simp [hasKey, hek, ih]

theorem keys_ne_of_not_hasKey {α β : Type} [DecidableEq α] (m : List (α × β)) (k : α)
    (h : hasKey m k = false) : ∀ e ∈ m, e.1 ≠ k := by
  induction m with
  | nil => simp
  | cons e m ih =>
    have hek : ¬e.1 = k := by
      intro hk
      simp [hasKey, hk] at h
    have hm : hasKey m k = false := by simpa [hasKey, hek] using h
    intro x hx
    cases hx with
    | head => exact hek
    | tail _ hx => exact ih hm x hx

theorem mapSet_mapSet_same {α β : Type} [DecidableEq α] (m : List (α × β)) (k : α) (v : β) :
    mapSet (mapSet m k v) k v = mapSet m k v := by
  have hkey : hasKey (mapSet m k v) k = true := by
    unfold mapSet
    cases hhk : hasKey m k with
    | true => simp [hhk, hasKey_map_overwrite m k v hhk]
    | false => simp [hhk, hasKey_append_self]
  have hmapfix : ∀ e : α × β,
      (fun e : α × β => if e.1 = k then (k, v) else e)
        ((fun e : α × β => if e.1 = k then (k, v) else e) e) =
      (fun e : α × β => if e.1 = k then (k, v) else e) e := by
    intro e
    by_cases hek : e.1 = k <;> simp [hek]
  conv_lhs => rw [mapSet]
  rw [if_pos hkey]
  unfold mapSet
  cases hhk : hasKey m k with
  | true =>
    simp only [if_pos rfl, hhk, if_true]
    rw [List.map_map]
    exact List.map_congr_left fun e _ => hmapfix e
  | false =>
    simp only [hhk, Bool.false_eq_true, if_false, List.map_append]
    have h1 : (m.map fun e : α × β => if e.1 = k then (k, v) else e) = m := by
      have := keys_ne_of_not_hasKey m k hhk
      calc (m.map fun e : α × β => if e.1 = k then (k, v) else e)
          = m.map id := List.map_congr_left fun e he => by simp [this e he]
        _ = m := List.map_id m
    simp [h1]

/-! ### Claim C1 -/

/-- C1: for every order-book side and every batch of `(price, size)` entries
applied in order by `updateLevels`, the resulting level at any price `p` is
decided by the last entry for `p` in the batch: a last size of `0` removes the
level (a no-op when absent), a non-zero last size is stored exactly, and when
`p` has no entry in the batch the side keeps its previous level at `p`. -/
theorem updateLevels_last_write_wins (m : Side) (es : List (ℚ × ℚ)) (p : ℚ) :
    mapGet (updateLevels m es) p =
      match (es.filter fun e => decide (e.1 = p)).getLast? with
      | none => mapGet m p
      | some e => if e.2 = 0 then none else some e.2 := by
  induction es generalizing m with
  | nil => rfl
  | cons a t ih =>
    have step : updateLevels m (a :: t) =
        updateLevels (if a.2 = 0 then mapDelete m a.1 else mapSet m a.1 a.2) t := rfl
    rw [step, ih]
    by_cases hap : a.1 = p
    · rw [show ((a :: t).filter fun e => decide (e.1 = p))
          = a :: (t.filter fun e => decide (e.1 = p)) from by simp [hap]]
      cases hft : t.filter fun e => decide (e.1 = p) with
      | nil =>
        simp only [List.getLast?_singleton]
        by_cases ha0 : a.2 = 0
        · simp [ha0, mapGet_mapDelete, hap.symm]
        · simp [ha0, mapGet_mapSet, hap.symm]
      | cons b u =>
        rw [List.getLast?_cons_cons]
        cases hgl : (b :: u).getLast? with
        | none => simp at hgl
        | some e => simp
    · rw [show ((a :: t).filter fun e => decide (e.1 = p))
          = t.filter fun e => decide (e.1 = p) from by simp [hap]]
      cases hft : (t.filter fun e => decide (e.1 = p)).getLast? with
      | none =>
        have hpa : ¬p = a.1 := fun h => hap h.symm
        by_cases ha0 : a.2 = 0
        · simp [ha0, mapGet_mapDelete, hpa]
        · simp [ha0, mapGet_mapSet, hpa]
      | some e => simp

/-! ### Claim C6 -/

/-- C6: on a bid list sorted descending by price, the early-exit loop that sums
sizes from the front and stops at the first level below `bidCutoff` returns the
same total as summing the sizes of all levels with `price >= bidCutoff`;
symmetrically for an ask list sorted ascending with `price <= askCutoff`. -/
theorem earlyExit_sums_eq_filter_sums (bidCutoff askCutoff : ℚ)
    (bids asks : List OrderLevel)
    (hb : bids.Pairwise bidsOrder) (ha : asks.Pairwise asksOrder) :
    sumBidsWithinCutoff bidCutoff bids =
      ((bids.filter fun l => decide (bidCutoff ≤ l.price)).map OrderLevel.size).sum ∧
    sumAsksWithinCutoff askCutoff asks =
      ((asks.filter fun l => decide (l.price ≤ askCutoff)).map OrderLevel.size).sum := by
  constructor
  · induction bids with
    | nil => rfl
    | cons l ls ih =>
      rw [List.pairwise_cons] at hb
      by_cases hc : bidCutoff ≤ l.price
      · simp only [sumBidsWithinCutoff, if_pos hc, List.filter_cons,
          decide_eq_true hc, List.map_cons, List.sum_cons, if_pos trivial]
        rw [ih hb.2]
      · have hnil : (ls.filter fun x => decide (bidCutoff ≤ x.price)) = [] := by
          rw [List.filter_eq_nil_iff]
          intro x hx
          simp only [decide_eq_true_eq]
          intro hcx
          exact hc (le_trans hcx (hb.1 x hx))
        simp [sumBidsWithinCutoff, if_neg hc, List.filter_cons, hc, hnil]
  · induction asks with
    | nil => rfl
    | cons l ls ih =>
      rw [List.pairwise_cons] at ha
      by_cases hc : l.price ≤ askCutoff
      · simp only [sumAsksWithinCutoff, if_pos hc, List.filter_cons,
          decide_eq_true hc, List.map_cons, List.sum_cons, if_pos trivial]
        rw [ih ha.2]
      · have hnil : (ls.filter fun x => decide (x.price ≤ askCutoff)) = [] := by
          rw [List.filter_eq_nil_iff]
          intro x hx
          simp only [decide_eq_true_eq]
          intro hcx
          exact hc (le_trans (ha.1 x hx) hcx)
        simp [sumAsksWithinCutoff, if_neg hc, List.filter_cons, hc, hnil]

/-- Witness for C6 at a concrete sorted book. -/
theorem earlyExit_sums_eq_filter_sums_witness :
    ([⟨100, 2⟩, ⟨99, 5⟩] : List OrderLevel).Pairwise bidsOrder ∧
    ([⟨101, 3⟩, ⟨102, 4⟩] : List OrderLevel).Pairwise asksOrder ∧
    (sumBidsWithinCutoff 100 [⟨100, 2⟩, ⟨99, 5⟩] =
      ((([⟨100, 2⟩, ⟨99, 5⟩] : List OrderLevel).filter
        fun l => decide ((100 : ℚ) ≤ l.price)).map OrderLevel.size).sum ∧
    sumAsksWithinCutoff 101 [⟨101, 3⟩, ⟨102, 4⟩] =
      ((([⟨101, 3⟩, ⟨102, 4⟩] : List OrderLevel).filter
        fun l => decide (l.price ≤ (101 : ℚ))).map OrderLevel.size).sum) := by
  have hb : ([⟨100, 2⟩, ⟨99, 5⟩] : List OrderLevel).Pairwise bidsOrder := by
    norm_num [List.pairwise_cons, bidsOrder]
  have ha : ([⟨101, 3⟩, ⟨102, 4⟩] : List OrderLevel).Pairwise asksOrder := by
    norm_num [List.pairwise_cons, asksOrder]
  exact ⟨hb, ha, earlyExit_sums_eq_filter_sums 100 101 _ _ hb ha⟩

/-! ### Sorted-view helper lemmas -/

theorem sortedBids_ne_nil (m : Side) (h : m ≠ []) : sortedBids m ≠ [] := by
  intro hnil
  have hlen := (List.perm_insertionSort bidsOrder (m.map fun e => ⟨e.1, e.2⟩)).length_eq
  rw [show List.insertionSort bidsOrder (m.map fun e => (⟨e.1, e.2⟩ : OrderLevel))
      = sortedBids m from rfl, hnil] at hlen
  simp at hlen
  exact h (List.length_eq_zero.mp hlen.symm)

theorem sortedAsks_ne_nil (m : Side) (h : m ≠ []) : sortedAsks m ≠ [] := by
  intro hnil
  have hlen := (List.perm_insertionSort asksOrder (m.map fun e => ⟨e.1, e.2⟩)).length_eq
  rw [show List.insertionSort asksOrder (m.map fun e => (⟨e.1, e.2⟩ : OrderLevel))
      = sortedAsks m from rfl, hnil] at hlen
  simp at hlen
  exact h (List.length_eq_zero.mp hlen.symm)

theorem sortedBids_head_max (m : Side) (h : m ≠ []) :
    ((sortedBids m).head (sortedBids_ne_nil m h)).price ∈ m.map Prod.fst ∧
    ∀ p ∈ m.map Prod.fst, p ≤ ((sortedBids m).head (sortedBids_ne_nil m h)).price := by
  have hperm : List.Perm (sortedBids m) (m.map fun e => (⟨e.1, e.2⟩ : OrderLevel)) :=
    List.perm_insertionSort bidsOrder _
  have hsorted : List.Sorted bidsOrder (sortedBids m) :=
    List.sorted_insertionSort bidsOrder _
  obtain ⟨l0, rest, hL⟩ := List.exists_cons_of_ne_nil (sortedBids_ne_nil m h)
  have hhead : (sortedBids m).head (sortedBids_ne_nil m h) = l0 := by
    have h1 := List.head?_eq_head (sortedBids_ne_nil m h)
    conv at h1 => lhs; rw [hL]
    exact (Option.some_injective _ h1).symm
  constructor
  · rw [hhead]
    have hl0 : l0 ∈ m.map fun e => (⟨e.1, e.2⟩ : OrderLevel) := by
      rw [← hperm.mem_iff, hL]
      exact List.mem_cons_self _ _
    obtain ⟨e, he, heq⟩ := List.mem_map.mp hl0
    exact List.mem_map.mpr ⟨e, he, by rw [← heq]⟩
  · intro p hp
    rw [hhead]
    obtain ⟨e, he, heq⟩ := List.mem_map.mp hp
    have hlvl : (⟨e.1, e.2⟩ : OrderLevel) ∈ sortedBids m := by
      rw [hperm.mem_iff]
      exact List.mem_map.mpr ⟨e, he, rfl⟩
    rw [hL] at hlvl hsorted
    cases hlvl with
    | head => rw [← heq]
    | tail _ hmem =>
      have := List.rel_of_sorted_cons hsorted _ hmem
      rw [← heq]
      exact this

theorem sortedAsks_head_min (m : Side) (h : m ≠ []) :
    ((sortedAsks m).head (sortedAsks_ne_nil m h)).price ∈ m.map Prod.fst ∧
    ∀ p ∈ m.map Prod.fst, ((sortedAsks m).head (sortedAsks_ne_nil m h)).price ≤ p := by
  have hperm : List.Perm (sortedAsks m) (m.map fun e => (⟨e.1, e.2⟩ : OrderLevel)) :=
    List.perm_insertionSort asksOrder _
  have hsorted : List.Sorted asksOrder (sortedAsks m) :=
    List.sorted_insertionSort asksOrder _
  obtain ⟨l0, rest, hL⟩ := List.exists_cons_of_ne_nil (sortedAsks_ne_nil m h)
  have hhead : (sortedAsks m).head (sortedAsks_ne_nil m h) = l0 := by
    have h1 := List.head?_eq_head (sortedAsks_ne_nil m h)
    conv at h1 => lhs; rw [hL]
    exact (Option.some_injective _ h1).symm
  constructor
  · rw [hhead]
    have hl0 : l0 ∈ m.map fun e => (⟨e.1, e.2⟩ : OrderLevel) := by
      rw [← hperm.mem_iff, hL]
      exact List.mem_cons_self _ _
    obtain ⟨e, he, heq⟩ := List.mem_map.mp hl0
    exact List.mem_map.mpr ⟨e, he, by rw [← heq]⟩
  · intro p hp
    rw [hhead]
    obtain ⟨e, he, heq⟩ := List.mem_map.mp hp
    have hlvl : (⟨e.1, e.2⟩ : OrderLevel) ∈ sortedAsks m := by
      rw [hperm.mem_iff]
      exact List.mem_map.mpr ⟨e, he, rfl⟩
    rw [hL] at hlvl hsorted
    cases hlvl with
    | head => rw [← heq]
    | tail _ hmem =>
      have := List.rel_of_sorted_cons hsorted _ hmem
      rw [← heq]
      exact this

/-! ### Claim C3 -/

/-- C3: for every book with non-empty bids and asks, the snapshot produced by
`calculateMetrics` on the sorted views has `bestBid` equal to the maximum bid
price, `bestAsk` equal to the minimum ask price,
`price = (bestBid + bestAsk) / 2`, `spread = bestAsk - bestBid`,
`spreadPct = spread / bestBid` (denominator is the best bid), and
`totalUsd = (bidSide + askSide) * price`. -/
theorem calculateMetrics_snapshot_spec (symbol : String) (bids asks : Side)
    (hb : bids ≠ []) (ha : asks ≠ []) :
    (calculateMetrics symbol (sortedBids bids) (sortedAsks asks)
        (sortedBids_ne_nil bids hb) (sortedAsks_ne_nil asks ha)).bestBid
        ∈ bids.map Prod.fst ∧
    (∀ p ∈ bids.map Prod.fst,
      p ≤ (calculateMetrics symbol (sortedBids bids) (sortedAsks asks)
        (sortedBids_ne_nil bids hb) (sortedAsks_ne_nil asks ha)).bestBid) ∧
    (calculateMetrics symbol (sortedBids bids) (sortedAsks asks)
        (sortedBids_ne_nil bids hb) (sortedAsks_ne_nil asks ha)).bestAsk
        ∈ asks.map Prod.fst ∧
    (∀ p ∈ asks.map Prod.fst,
      (calculateMetrics symbol (sortedBids bids) (sortedAsks asks)
        (sortedBids_ne_nil bids hb) (sortedAsks_ne_nil asks ha)).bestAsk ≤ p) ∧
    (calculateMetrics symbol (sortedBids bids) (sortedAsks asks)
        (sortedBids_ne_nil bids hb) (sortedAsks_ne_nil asks ha)).price =
      ((calculateMetrics symbol (sortedBids bids) (sortedAsks asks)
        (sortedBids_ne_nil bids hb) (sortedAsks_ne_nil asks ha)).bestBid +
       (calculateMetrics symbol (sortedBids bids) (sortedAsks asks)
        (sortedBids_ne_nil bids hb) (sortedAsks_ne_nil asks ha)).bestAsk) / 2 ∧
    (calculateMetrics symbol (sortedBids bids) (sortedAsks asks)
        (sortedBids_ne_nil bids hb) (sortedAsks_ne_nil asks ha)).spread =
      (calculateMetrics symbol (sortedBids bids) (sortedAsks asks)
        (sortedBids_ne_nil bids hb) (sortedAsks_ne_nil asks ha)).bestAsk -
      (calculateMetrics symbol (sortedBids bids) (sortedAsks asks)
        (sortedBids_ne_nil bids hb) (sortedAsks_ne_nil asks ha)).bestBid ∧
    (calculateMetrics symbol (sortedBids bids) (sortedAsks asks)
        (sortedBids_ne_nil bids hb) (sortedAsks_ne_nil asks ha)).spreadPct =
      (calculateMetrics symbol (sortedBids bids) (sortedAsks asks)
        (sortedBids_ne_nil bids hb) (sortedAsks_ne_nil asks ha)).spread /
      (calculateMetrics symbol (sortedBids bids) (sortedAsks asks)
        (sortedBids_ne_nil bids hb) (sortedAsks_ne_nil asks ha)).bestBid ∧
    (calculateMetrics symbol (sortedBids bids) (sortedAsks asks)
        (sortedBids_ne_nil bids hb) (sortedAsks_ne_nil asks ha)).liquidityInTightRange.totalUsd =
      ((calculateMetrics symbol (sortedBids bids) (sortedAsks asks)
        (sortedBids_ne_nil bids hb) (sortedAsks_ne_nil asks ha)).liquidityInTightRange.bidSide +
       (calculateMetrics symbol (sortedBids bids) (sortedAsks asks)
        (sortedBids_ne_nil bids hb) (sortedAsks_ne_nil asks ha)).liquidityInTightRange.askSide) *
      (calculateMetrics symbol (sortedBids bids) (sortedAsks asks)
        (sortedBids_ne_nil bids hb) (sortedAsks_ne_nil asks ha)).price := by
  refine ⟨?_, ?_, ?_, ?_, rfl, rfl, rfl, rfl⟩
  · exact (sortedBids_head_max bids hb).1
  · exact (sortedBids_head_max bids hb).2
  · exact (sortedAsks_head_min asks ha).1
  · exact (sortedAsks_head_min asks ha).2

/-- Witness for C3 at a concrete two-level book. -/
theorem calculateMetrics_snapshot_spec_witness :
    (([(100, 2), (99, 5)] : Side) ≠ [] ∧ ([(101, 3), (102, 4)] : Side) ≠ []) ∧
    (calculateMetrics "BTC-USD-PERP" (sortedBids [(100, 2), (99, 5)])
        (sortedAsks [(101, 3), (102, 4)])
        (sortedBids_ne_nil _ (List.cons_ne_nil _ _))
        (sortedAsks_ne_nil _ (List.cons_ne_nil _ _))).spread =
      (calculateMetrics "BTC-USD-PERP" (sortedBids [(100, 2), (99, 5)])
        (sortedAsks [(101, 3), (102, 4)])
        (sortedBids_ne_nil _ (List.cons_ne_nil _ _))
        (sortedAsks_ne_nil _ (List.cons_ne_nil _ _))).bestAsk -
      (calculateMetrics "BTC-USD-PERP" (sortedBids [(100, 2), (99, 5)])
        (sortedAsks [(101, 3), (102, 4)])
        (sortedBids_ne_nil _ (List.cons_ne_nil _ _))
        (sortedAsks_ne_nil _ (List.cons_ne_nil _ _))).bestBid := by
  refine ⟨⟨List.cons_ne_nil _ _, List.cons_ne_nil _ _⟩, ?_⟩
  exact (calculateMetrics_snapshot_spec "BTC-USD-PERP" [(100, 2), (99, 5)]
    [(101, 3), (102, 4)] (List.cons_ne_nil _ _) (List.cons_ne_nil _ _)).2.2.2.2.2.1

/-! ### Claim C7 -/

/-- C7: a delta for an instrument with no book in `localOrderBooks` is a total
no-op: the state is returned unchanged and no notification is emitted. -/
theorem untracked_delta_is_noop (st : ServiceState) (symbol : String)
    (rawBids rawAsks : List (ℚ × ℚ))
    (hmissing : mapGet st.localOrderBooks symbol = none) :
    processOrderBookUpdate st symbol rawBids rawAsks = (st, none) := by
  unfold processOrderBookUpdate
  rw [hmissing]

/-- Witness for C7: a delta for an instrument absent from an empty registry. -/
theorem untracked_delta_is_noop_witness :
    mapGet (([] : List (String × Book))) "ETH-USD-PERP" = none ∧
    processOrderBookUpdate ⟨[], []⟩ "ETH-USD-PERP" [(100, 2)] [(101, 3)] =
      (⟨[], []⟩, none) :=
  ⟨rfl, untracked_delta_is_noop ⟨[], []⟩ "ETH-USD-PERP" [(100, 2)] [(101, 3)] rfl⟩

/-! ### Claim C2 -/

/-- C2: when the book passed to the metrics calculation has an empty bid side
or an empty ask side, processing the delta produces no snapshot: the stored
ticker map is unchanged and no subscriber notification is emitted. -/
theorem emptySide_suppresses_snapshot (st : ServiceState) (symbol : String)
    (rawBids rawAsks : List (ℚ × ℚ)) (book : Book)
    (hfound : mapGet st.localOrderBooks symbol = some book)
    (hempty : updateLevels book.bids rawBids = [] ∨
      updateLevels book.asks rawAsks = []) :
    ((processOrderBookUpdate st symbol rawBids rawAsks).1).marketTickers
        = st.marketTickers ∧
    (processOrderBookUpdate st symbol rawBids rawAsks).2 = none := by
  simp only [processOrderBookUpdate, hfound]
  cases hempty with
  | inl h =>
    rw [dif_neg (not_not_intro (by rw [h, sortedBids]; rfl))]
    exact ⟨rfl, rfl⟩
  | inr h =>
    by_cases hb : sortedBids (updateLevels book.bids rawBids) = []
    · rw [dif_neg (not_not_intro hb)]
      exact ⟨rfl, rfl⟩
    · rw [dif_pos hb, dif_neg (not_not_intro (by rw [h, sortedAsks]; rfl))]
      exact ⟨rfl, rfl⟩

/-- Witness for C2: an empty tracked book stays snapshot-free on a delta. -/
theorem emptySide_suppresses_snapshot_witness :
    mapGet [("BTC-USD-PERP", (⟨[], []⟩ : Book))] "BTC-USD-PERP" = some ⟨[], []⟩ ∧
    (updateLevels (⟨[], []⟩ : Book).bids [] = [] ∨
      updateLevels (⟨[], []⟩ : Book).asks [] = []) ∧
    ((processOrderBookUpdate ⟨[("BTC-USD-PERP", ⟨[], []⟩)], []⟩
        "BTC-USD-PERP" [] []).1).marketTickers = [] ∧
    (processOrderBookUpdate ⟨[("BTC-USD-PERP", ⟨[], []⟩)], []⟩
        "BTC-USD-PERP" [] []).2 = none := by
  refine ⟨rfl, Or.inl rfl, ?_⟩
  exact emptySide_suppresses_snapshot ⟨[("BTC-USD-PERP", ⟨[], []⟩)], []⟩
    "BTC-USD-PERP" [] [] ⟨[], []⟩ rfl (Or.inl rfl)

/-! ### Claim C9 -/

/-- C9: applying the empty delta `{bids: [], asks: []}` leaves every book in
the registry unchanged (as a map from instrument to book), and running the
empty delta again returns exactly the same state and the same notification as
the first run: the empty delta neither changes the book nor produces a
different snapshot than before. -/
theorem emptyDelta_noop (st : ServiceState) (symbol : String) :
    (∀ s, mapGet ((processOrderBookUpdate st symbol [] []).1).localOrderBooks s
        = mapGet st.localOrderBooks s) ∧
    processOrderBookUpdate ((processOrderBookUpdate st symbol [] []).1) symbol [] []
      = processOrderBookUpdate st symbol [] [] := by
  cases hfound : mapGet st.localOrderBooks symbol with
  | none =>
    have h1 : processOrderBookUpdate st symbol [] [] = (st, none) := by
      unfold processOrderBookUpdate
      rw [hfound]
    refine ⟨fun s => by rw [h1], ?_⟩
    rw [h1]
    exact h1
  | some book =>
    have hfound2 : mapGet (mapSet st.localOrderBooks symbol book) symbol
        = some book := by
      rw [mapGet_mapSet]
      simp
    have hbooks : ((processOrderBookUpdate st symbol [] []).1).localOrderBooks
        = mapSet st.localOrderBooks symbol book := by
      simp only [processOrderBookUpdate, hfound]
      split_ifs <;> rfl
    refine ⟨?_, ?_⟩
    · intro s
      rw [hbooks, mapGet_mapSet]
      by_cases hs : s = symbol
      · rw [if_pos hs, hs, hfound]
      · rw [if_neg hs]
    · by_cases hb : sortedBids (updateLevels book.bids ([] : List (ℚ × ℚ))) ≠ []
      · by_cases ha : sortedAsks (updateLevels book.asks ([] : List (ℚ × ℚ))) ≠ []
        · have h1 : processOrderBookUpdate st symbol [] [] =
              (⟨mapSet st.localOrderBooks symbol book,
                mapSet st.marketTickers symbol
                  (calculateMetrics symbol
                    (sortedBids (updateLevels book.bids []))
                    (sortedAsks (updateLevels book.asks [])) hb ha)⟩,
               some ((mapSet st.marketTickers symbol
                  (calculateMetrics symbol
                    (sortedBids (updateLevels book.bids []))
                    (sortedAsks (updateLevels book.asks [])) hb ha)).map Prod.snd)) := by
            simp only [processOrderBookUpdate, hfound]
            rw [dif_pos hb, dif_pos ha]
            rfl
          have h2 : processOrderBookUpdate
              (⟨mapSet st.localOrderBooks symbol book,
                mapSet st.marketTickers symbol
                  (calculateMetrics symbol
                    (sortedBids (updateLevels book.bids []))
                    (sortedAsks (updateLevels book.asks [])) hb ha)⟩ : ServiceState)
              symbol [] [] =
              (⟨mapSet (mapSet st.localOrderBooks symbol book) symbol book,
                mapSet (mapSet st.marketTickers symbol
                  (calculateMetrics symbol
                    (sortedBids (updateLevels book.bids []))
                    (sortedAsks (updateLevels book.asks [])) hb ha)) symbol
                  (calculateMetrics symbol
                    (sortedBids (updateLevels book.bids []))
                    (sortedAsks (updateLevels book.asks [])) hb ha)⟩,
               some ((mapSet (mapSet st.marketTickers symbol
                  (calculateMetrics symbol
                    (sortedBids (updateLevels book.bids []))
                    (sortedAsks (updateLevels book.asks [])) hb ha)) symbol
                  (calculateMetrics symbol
                    (sortedBids (updateLevels book.bids []))
                    (sortedAsks (updateLevels book.asks [])) hb ha)).map Prod.snd)) := by
            simp only [processOrderBookUpdate, hfound2]
            rw [dif_pos hb, dif_pos ha]
            rfl
          rw [h1]
          exact h2.trans (by rw [mapSet_mapSet_same, mapSet_mapSet_same])
        · have h1 : processOrderBookUpdate st symbol [] [] =
              (⟨mapSet st.localOrderBooks symbol book, st.marketTickers⟩, none) := by
            simp only [processOrderBookUpdate, hfound]
            rw [dif_pos hb, dif_neg ha]
            rfl
          have h2 : processOrderBookUpdate
              (⟨mapSet st.localOrderBooks symbol book, st.marketTickers⟩ : ServiceState)
              symbol [] [] =
              (⟨mapSet (mapSet st.localOrderBooks symbol book) symbol book,
                st.marketTickers⟩, none) := by
            simp only [processOrderBookUpdate, hfound2]
            rw [dif_pos hb, dif_neg ha]
            rfl
          rw [h1]
          exact h2.trans (by rw [mapSet_mapSet_same])
      · have h1 : processOrderBookUpdate st symbol [] [] =
            (⟨mapSet st.localOrderBooks symbol book, st.marketTickers⟩, none) := by
          simp only [processOrderBookUpdate, hfound]
          rw [dif_neg hb]
          rfl
        have h2 : processOrderBookUpdate
            (⟨mapSet st.localOrderBooks symbol book, st.marketTickers⟩ : ServiceState)
            symbol [] [] =
            (⟨mapSet (mapSet st.localOrderBooks symbol book) symbol book,
              st.marketTickers⟩, none) := by
          simp only [processOrderBookUpdate, hfound2]
          rw [dif_neg hb]
          rfl
        rw [h1]
        exact h2.trans (by rw [mapSet_mapSet_same])

/-! ### Claim C8 -/

/-- C8: for a handler registered via `subscribe`, invoking the returned
unsubscribe closure removes that handler exactly once (restoring the previous
subscriber list), and invoking it again is a no-op that leaves the subscriber
list unchanged.  Handlers are compared by reference identity, so a handler
being registered means its identity is not already in the list. -/
theorem unsubscribe_removes_exactly_once (subs : List Handler) (cb : Handler)
    (hfresh : cb ∉ subs) :
    unsubscribe (subscribe subs cb) cb = subs ∧
    unsubscribe (unsubscribe (subscribe subs cb) cb) cb
      = unsubscribe (subscribe subs cb) cb := by
  have hsubs : List.filter (fun s => decide (s ≠ cb)) subs = subs :=
    List.filter_eq_self.mpr fun a ha => decide_eq_true fun h => hfresh (h ▸ ha)
  have h1 : unsubscribe (subscribe subs cb) cb = subs := by
    unfold subscribe unsubscribe
    rw [List.filter_append, hsubs]
    simp
  refine ⟨h1, ?_⟩
  rw [h1]
  unfold unsubscribe
  rw [hsubs]

/-- Witness for C8: subscribing handler `3` to the list `[7]`, then
unsubscribing twice. -/
theorem unsubscribe_removes_exactly_once_witness :
    (3 : Handler) ∉ ([7] : List Handler) ∧
    (unsubscribe (subscribe [7] 3) 3 = [7] ∧
     unsubscribe (unsubscribe (subscribe [7] 3) 3) 3 = unsubscribe (subscribe [7] 3) 3) :=
  ⟨by decide, unsubscribe_removes_exactly_once [7] 3 (by decide)⟩

/-! ### Claim C10 -/

/-- C10: the identity of a price level is the parsed numeric value of the
price string, not its textual form.  If two price strings parse to the same
number, a batch that inserts a level under the first string and then sends a
zero-size entry under the second string leaves no level at that price. -/
theorem price_identity_is_parsed_value (s1 s2 szs : String) (q sz : ℚ)
    (h1 : parseFloat s1 = some q) (h2 : parseFloat s2 = some q)
    (hs : parseFloat szs = some sz) (hnz : sz ≠ 0) (side : Side) :
    mapGet (updateLevelsRaw side [(s1, szs), (s2, "0")]) q = none := by
  have hzero : parseFloat "0" = some 0 := by
    rw [show parseFloat "0" = some (mkDecimal 0 0 0) from rfl]
    norm_num [mkDecimal]
  simp only [updateLevelsRaw, List.foldl_cons, List.foldl_nil]
  simp only [h1, h2, hs, hzero]
  rw [if_neg hnz]
  simp [mapGet_mapDelete]

/-- Witness for C10: `"100.0"` and `"100.00"` parse to the same number `100`,
so inserting size `2` under `"100.0"` and deleting under `"100.00"` removes
the level. -/
theorem price_identity_is_parsed_value_witness :
    parseFloat "100.0" = some 100 ∧ parseFloat "100.00" = some 100 ∧
    parseFloat "2" = some 2 ∧ (2 : ℚ) ≠ 0 ∧
    mapGet (updateLevelsRaw [] [("100.0", "2"), ("100.00", "0")]) 100 = none := by
  have hp1 : parseFloat "100.0" = some 100 := by
    rw [show parseFloat "100.0" = some (mkDecimal 100 0 1) from rfl]
    norm_num [mkDecimal]
  have hp2 : parseFloat "100.00" = some 100 := by
    rw [show parseFloat "100.00" = some (mkDecimal 100 0 2) from rfl]
    norm_num [mkDecimal]
  have hps : parseFloat "2" = some 2 := by
    rw [show parseFloat "2" = some (mkDecimal 2 0 0) from rfl]
    norm_num [mkDecimal]
  have hnz : (2 : ℚ) ≠ 0 := by norm_num
  exact ⟨hp1, hp2, hps, hnz,
    price_identity_is_parsed_value "100.0" "100.00" "2" 100 2 hp1 hp2 hps hnz []⟩

/-! ### Claim C5 -/

/-- C5: for the book with bids `{100.00: 2, 99.99: 5}` and asks
`{100.02: 3, 100.03: 4}` at threshold `0.00001`, the snapshot has
`bestBid = 100.00`, `bestAsk = 100.02`, `mid = 100.01`, `spreadAbs = 0.02`,
`spreadPct = 0.0002`, `bidLiquidityInBand = 2` (the `99.99` level is below the
cutoff `99.999`), `askLiquidityInBand = 3`, and
`bandUsdEstimate = 5 * 100.01 = 500.05`.  Arithmetic is modelled exactly over
the rationals. -/
theorem scenario_metrics_values :
    calculateMetrics "BTC-USD-PERP" (sortedBids [(100, 2), (99.99, 5)])
      (sortedAsks [(100.02, 3), (100.03, 4)])
      (sortedBids_ne_nil _ (List.cons_ne_nil _ _))
      (sortedAsks_ne_nil _ (List.cons_ne_nil _ _)) =
    { symbol := "BTC-USD-PERP", price := 100.01, bestBid := 100,
      bestAsk := 100.02, spread := 0.02, spreadPct := 0.0002,
      liquidityInTightRange := { bidSide := 2, askSide := 3, totalUsd := 500.05 },
      volume24h := 0 } := by
  norm_num [sortedBids, sortedAsks, bidsOrder, asksOrder, calculateMetrics,
    sumBidsWithinCutoff, sumAsksWithinCutoff, TARGET_SPREAD_THRESHOLD]

/-! ### Claim C4 -/

/-- C4 (divergence evidence): re-running `subscribeToMarkets` for an already
tracked instrument does not clear its book.  A stale bid level `(100, 2)` and
ask level `(101, 3)` from the previous connection survive a re-subscription
unchanged, and the stored snapshots are untouched as well; the book is reset
to empty only when the symbol has no book at all. -/
theorem subscribeToMarkets_keeps_stale_book :
    subscribeToMarkets ⟨[("BTC-USD-PERP", ⟨[(100, 2)], [(101, 3)]⟩)], []⟩
        ["BTC-USD-PERP"] =
      ⟨[("BTC-USD-PERP", ⟨[(100, 2)], [(101, 3)]⟩)], []⟩ := by
  simp [subscribeToMarkets, mapGet]

end ParadexSpread
